import Mathlib

/-!
Verification of the nostalgic persuasive recommendation engine.

The algorithmic core of the repository is specified in the algorithm
write-ups (NOSTALGIA_SCORE, NORMALIZE_GENRE, GET_RECOMMENDATION,
HIERARCHICAL_SELECT, LINUCB_SELECT, LINUCB_UPDATE, BUILD_CONTEXT_FEATURES).
This file gives a shallow embedding of those algorithms and proves or
refutes the spec-level properties stated about them.
-/

namespace NostalgicModel

open Matrix

/-! ## Nostalgia score (Algorithm 3, NOSTALGIA_SCORE) -/

/-- Age when nostalgia peaks, the reminiscence bump (constant PEAK_AGE). -/
def PEAK_AGE : ℝ := 13

/-- Gaussian curve width (constant WIDTH). -/
def WIDTH : ℝ := 8

/-- Decay rate for pre-birth content (constant PREBIRTH_DECAY). -/
def PREBIRTH_DECAY : ℝ := 0.03

/-- Maximum cultural nostalgia contribution (constant CULTURAL_WEIGHT). -/
def CULTURAL_WEIGHT : ℝ := 0.4

/-- Base personal nostalgia weight (constant BASE_WEIGHT). -/
def BASE_WEIGHT : ℝ := 0.7

/-- Maximum popularity boost (constant POP_BOOST). -/
def POP_BOOST : ℝ := 0.3

/-- Age-based nostalgia, Algorithm 3a (AGE_NOSTALGIA): Gaussian reminiscence
bump centered at PEAK_AGE for post-birth ages, exponentially decayed
birth-point value for pre-birth ages. -/
noncomputable def ageNostalgia (age : ℝ) : ℝ :=
  if 0 ≤ age then
    Real.exp (-((age - PEAK_AGE) ^ 2 / (2 * WIDTH ^ 2)))
  else
    Real.exp (-((0 - PEAK_AGE) ^ 2 / (2 * WIDTH ^ 2))) *
      Real.exp (-(PREBIRTH_DECAY * |age|))

/-- Popularity score, Algorithm 3b (POPULARITY_SCORE): zero on non-positive
inputs, clamped linear ratio in linear mode, log ratio otherwise. -/
noncomputable def popularityScore (rating_count max_count : ℝ)
    (use_linear : Bool) : ℝ :=
  if rating_count ≤ 0 ∨ max_count ≤ 0 then 0
  else if use_linear then min 1 (rating_count / max_count)
  else Real.log (1 + rating_count) / Real.log (1 + max_count)

/-- Rounding to three decimal places, the final step of NOSTALGIA_SCORE. -/
noncomputable def round3 (x : ℝ) : ℝ := (round (1000 * x) : ℤ) / 1000

/-- Personal nostalgia component, step 4 of NOSTALGIA_SCORE: popularity
boosts but cannot create personal nostalgia. -/
noncomputable def personalNostalgia (age_score pop_score : ℝ) : ℝ :=
  age_score * (BASE_WEIGHT + POP_BOOST * pop_score)

/-- Cultural nostalgia component, step 5 of NOSTALGIA_SCORE: applies only to
pre-birth content. -/
noncomputable def culturalNostalgia (age pop_score : ℝ) : ℝ :=
  if age < 0 then pop_score * CULTURAL_WEIGHT else 0

/-- The unclamped combination personal + cultural computed in steps 1-5 of
NOSTALGIA_SCORE, before the final clamp and rounding of steps 6-7. -/
noncomputable def nostalgiaScoreRaw (birth_year release_year : ℤ)
    (rating_count max_count : ℝ) (use_linear : Bool) : ℝ :=
  personalNostalgia (ageNostalgia ((release_year : ℝ) - (birth_year : ℝ)))
      (popularityScore rating_count max_count use_linear) +
    culturalNostalgia ((release_year : ℝ) - (birth_year : ℝ))
      (popularityScore rating_count max_count use_linear)

theorem ageNostalgia_of_nonneg {age : ℝ} (h : 0 ≤ age) :
    ageNostalgia age = Real.exp (-((age - PEAK_AGE) ^ 2 / (2 * WIDTH ^ 2))) := by
  unfold ageNostalgia
  rw [if_pos h]

theorem ageNostalgia_of_neg {age : ℝ} (h : age < 0) :
    ageNostalgia age =
      Real.exp (-((0 - PEAK_AGE) ^ 2 / (2 * WIDTH ^ 2))) *
        Real.exp (-(PREBIRTH_DECAY * |age|)) := by
  unfold ageNostalgia
  rw [if_neg (not_le.mpr h)]

theorem culturalNostalgia_of_nonneg {age : ℝ} (p : ℝ) (h : 0 ≤ age) :
    culturalNostalgia age p = 0 := by
  unfold culturalNostalgia
  rw [if_neg (not_lt.mpr h)]

theorem culturalNostalgia_of_neg {age : ℝ} (p : ℝ) (h : age < 0) :
    culturalNostalgia age p = p * CULTURAL_WEIGHT := by
  unfold culturalNostalgia
  rw [if_pos h]

/-- Full nostalgia score, Algorithm 3 (NOSTALGIA_SCORE): clamp the raw
combination into the unit interval and round to three decimals. -/
noncomputable def nostalgiaScore (birth_year release_year : ℤ)
    (rating_count max_count : ℝ) (use_linear : Bool) : ℝ :=
  round3 (min 1 (max 0
    (nostalgiaScoreRaw birth_year release_year rating_count max_count use_linear)))

/-! ### Basic bounds on the components -/

theorem ageNostalgia_pos (age : ℝ) : 0 < ageNostalgia age := by
  unfold ageNostalgia
  split
  · exact Real.exp_pos _
  · exact mul_pos (Real.exp_pos _) (Real.exp_pos _)

theorem ageNostalgia_le_one (age : ℝ) : ageNostalgia age ≤ 1 := by
  unfold ageNostalgia
  split
  · rw [Real.exp_le_one_iff]
    have h2 : (0:ℝ) < 2 * WIDTH ^ 2 := by norm_num [WIDTH]
    have := sq_nonneg (age - PEAK_AGE)
    have := div_nonneg this h2.le
    linarith
  · have h1 : Real.exp (-((0 - PEAK_AGE) ^ 2 / (2 * WIDTH ^ 2))) ≤ 1 := by
      rw [Real.exp_le_one_iff]
      have h2 : (0:ℝ) < 2 * WIDTH ^ 2 := by norm_num [WIDTH]
      have := sq_nonneg ((0:ℝ) - PEAK_AGE)
      have := div_nonneg this h2.le
      linarith
    have h3 : Real.exp (-(PREBIRTH_DECAY * |age|)) ≤ 1 := by
      rw [Real.exp_le_one_iff]
      have : 0 ≤ PREBIRTH_DECAY * |age| := by
        have : (0:ℝ) ≤ PREBIRTH_DECAY := by norm_num [PREBIRTH_DECAY]
        exact mul_nonneg this (abs_nonneg _)
      linarith
    exact mul_le_one₀ h1 (Real.exp_pos _).le h3

theorem popularityScore_nonneg (rc mc : ℝ) (lin : Bool) :
    0 ≤ popularityScore rc mc lin := by
  unfold popularityScore
  split
  · exact le_refl 0
  · next h =>
    push_neg at h
    obtain ⟨hrc, hmc⟩ := h
    split
    · exact le_min (by norm_num) (div_nonneg hrc.le hmc.le)
    · exact div_nonneg (Real.log_nonneg (by linarith)) (Real.log_nonneg (by linarith))

theorem round3_mono {x y : ℝ} (h : x ≤ y) : round3 x ≤ round3 y := by
  unfold round3
  have h1 : round (1000 * x) ≤ round (1000 * y) := by
    rw [round_eq, round_eq]
    exact Int.floor_le_floor (by linarith)
  have h2 : ((round (1000 * x) : ℤ) : ℝ) ≤ ((round (1000 * y) : ℤ) : ℝ) :=
    Int.cast_le.mpr h1
  linarith

theorem round3_zero : round3 0 = 0 := by
  unfold round3
  norm_num

theorem round3_one : round3 1 = 1 := by
  unfold round3
  norm_num

/-- C1: for every birth year, release year and popularity input (any rating
count, max count and scaling mode), the nostalgia score returned by the
scorer lies between 0 and 1 inclusive. -/
theorem nostalgiaScore_mem_unit_interval (b r : ℤ) (rc mc : ℝ) (lin : Bool) :
    0 ≤ nostalgiaScore b r rc mc lin ∧ nostalgiaScore b r rc mc lin ≤ 1 := by
  unfold nostalgiaScore
  set t := nostalgiaScoreRaw b r rc mc lin
  have h0 : (0:ℝ) ≤ min 1 (max 0 t) := le_min (by norm_num) (le_max_left 0 t)
  have h1 : min 1 (max 0 t) ≤ 1 := min_le_left 1 (max 0 t)
  constructor
  · calc (0:ℝ) = round3 0 := round3_zero.symm
      _ ≤ round3 (min 1 (max 0 t)) := round3_mono h0
  · calc round3 (min 1 (max 0 t)) ≤ round3 1 := round3_mono h1
      _ = 1 := round3_one

theorem popularityScore_self (m : ℝ) (lin : Bool) (hm : 0 < m) :
    popularityScore m m lin = 1 := by
  unfold popularityScore
  rw [if_neg (by push_neg; exact ⟨hm, hm⟩)]
  cases lin with
  | false =>
    simp only [Bool.false_eq_true, if_false]
    exact div_self (Real.log_pos (by linarith)).ne'
  | true =>
    simp only [if_true]
    rw [div_self hm.ne']
    norm_num

/-- C2: the nostalgia score attains its maximum value 1.0 whenever the
release year is exactly 13 years after the birth year and the popularity
input equals the (positive) maximum, in either scaling mode. -/
theorem nostalgiaScore_peak (b r : ℤ) (m : ℝ) (lin : Bool)
    (hage : r - b = 13) (hm : 0 < m) :
    nostalgiaScore b r m m lin = 1 := by
  have hageR : (r : ℝ) - (b : ℝ) = 13 := by
    have := congrArg (fun z : ℤ => (z : ℝ)) hage
    push_cast at this
    linarith
  have hpop : popularityScore m m lin = 1 := popularityScore_self m lin hm
  have hage_score : ageNostalgia ((r : ℝ) - (b : ℝ)) = 1 := by
    unfold ageNostalgia
    rw [if_pos (by rw [hageR]; norm_num)]
    rw [hageR]
    norm_num [PEAK_AGE]
  have hraw : nostalgiaScoreRaw b r m m lin = 1 := by
    unfold nostalgiaScoreRaw personalNostalgia
    rw [hpop, hage_score, culturalNostalgia_of_nonneg _ (by rw [hageR]; norm_num)]
    norm_num [BASE_WEIGHT, POP_BOOST]
  unfold nostalgiaScore
  rw [hraw]
  norm_num
  exact round3_one

/-- Witness for C2 at the concrete input from the spec: a user born in 1990
and content released in 2003 at maximal popularity scores exactly 1. -/
theorem nostalgiaScore_peak_witness :
    nostalgiaScore 1990 2003 100 100 true = 1 :=
  nostalgiaScore_peak 1990 2003 100 true (by norm_num) (by norm_num)

/-! ### Clamp and rounding helpers -/

theorem clamp_eq_self {t : ℝ} (h0 : 0 ≤ t) (h1 : t ≤ 1) :
    min 1 (max 0 t) = t := by
  rw [max_eq_right h0, min_eq_right h1]

theorem round3_lt_of_gap {x y : ℝ} (h : x + 0.37 ≤ y) : round3 x < round3 y := by
  have h1 : round (1000 * x) + 370 ≤ round (1000 * y) := by
    have h2 : round ((1000 * x) + ((370 : ℤ) : ℝ)) = round (1000 * x) + 370 :=
      round_add_int (1000 * x) 370
    have h3 : round ((1000 * x) + ((370 : ℤ) : ℝ)) ≤ round (1000 * y) := by
      rw [round_eq, round_eq]
      apply Int.floor_le_floor
      push_cast
      linarith
    rw [h2] at h3
    exact h3
  unfold round3
  have h4 : ((round (1000 * x) : ℤ) : ℝ) + 370 ≤ ((round (1000 * y) : ℤ) : ℝ) := by
    exact_mod_cast h1
  linarith

/-- Bound on the birth-point Gaussian value: exp(-(13²/(2·8²))) < 1/2. -/
theorem birth_score_lt_half :
    Real.exp (-((0 - PEAK_AGE) ^ 2 / (2 * WIDTH ^ 2))) < 1 / 2 := by
  have h1 : Real.exp (-((0 - PEAK_AGE) ^ 2 / (2 * WIDTH ^ 2))) ≤ Real.exp (-1) := by
    apply Real.exp_le_exp.mpr
    norm_num [PEAK_AGE, WIDTH]
  have h2 : Real.exp (-1 : ℝ) < 1 / 2 := by
    rw [Real.exp_neg]
    have h3 : (2 : ℝ) < Real.exp 1 := by
      have := Real.exp_one_gt_d9
      linarith
    rw [inv_lt_comm₀ (by positivity) (by norm_num)]
    linarith
  linarith

/-- C10 counterexample: with logarithmic scaling and a rating count larger
than the normalization maximum (rating_count 99, max_count 9, hence
popularity score log(100)/log(10) = 2), the unclamped sum personal +
cultural equals 1.3, so the final clamp does change the value. -/
theorem clamp_changes_value_counterexample :
    nostalgiaScoreRaw 1990 2003 99 9 false = 1.3 ∧
      min 1 (max 0 (nostalgiaScoreRaw 1990 2003 99 9 false)) ≠
        nostalgiaScoreRaw 1990 2003 99 9 false := by
  have hlog : Real.log 10 ≠ 0 :=
    Real.log_ne_zero_of_pos_of_ne_one (by norm_num) (by norm_num)
  have hpop : popularityScore 99 9 false = 2 := by
    unfold popularityScore
    rw [if_neg (by push_neg; norm_num)]
    simp only [Bool.false_eq_true, if_false]
    have h100 : (1 : ℝ) + 99 = 10 ^ (2 : ℕ) := by norm_num
    have h10 : (1 : ℝ) + 9 = 10 := by norm_num
    rw [h100, h10, Real.log_pow]
    push_cast
    field_simp
  have hage : ageNostalgia ((2003 : ℝ) - 1990) = 1 := by
    unfold ageNostalgia
    rw [if_pos (by norm_num)]
    norm_num [PEAK_AGE]
  have hraw : nostalgiaScoreRaw 1990 2003 99 9 false = 1.3 := by
    unfold nostalgiaScoreRaw personalNostalgia
    push_cast
    rw [hpop, hage, culturalNostalgia_of_nonneg _ (by norm_num)]
    norm_num [BASE_WEIGHT, POP_BOOST]
  refine ⟨hraw, ?_⟩
  rw [hraw]
  norm_num

/-- C10 (amended): whenever the popularity score does not exceed 1 — which
holds in linear mode always, and in logarithmic mode exactly when
rating_count ≤ max_count — the unclamped sum personal + cultural already
lies in [0, 1], the clamp is the identity on it, and the returned score is
just the rounded raw sum. -/
theorem nostalgiaScoreRaw_clamp_id (b r : ℤ) (rc mc : ℝ) (lin : Bool)
    (hpop : popularityScore rc mc lin ≤ 1) :
    0 ≤ nostalgiaScoreRaw b r rc mc lin ∧
      nostalgiaScoreRaw b r rc mc lin ≤ 1 ∧
      min 1 (max 0 (nostalgiaScoreRaw b r rc mc lin)) =
        nostalgiaScoreRaw b r rc mc lin ∧
      nostalgiaScore b r rc mc lin = round3 (nostalgiaScoreRaw b r rc mc lin) := by
  set a : ℝ := (r : ℝ) - (b : ℝ) with ha
  have hp0 : 0 ≤ popularityScore rc mc lin := popularityScore_nonneg rc mc lin
  set p := popularityScore rc mc lin with hp
  have hg0 : 0 < ageNostalgia a := ageNostalgia_pos a
  have hg1 : ageNostalgia a ≤ 1 := ageNostalgia_le_one a
  have hraw : nostalgiaScoreRaw b r rc mc lin =
      ageNostalgia a * (BASE_WEIGHT + POP_BOOST * p) +
        (if a < 0 then p * CULTURAL_WEIGHT else 0) := by
    unfold nostalgiaScoreRaw personalNostalgia culturalNostalgia
    rfl
  have hw0 : 0 ≤ BASE_WEIGHT + POP_BOOST * p := by
    norm_num [BASE_WEIGHT, POP_BOOST]
    nlinarith
  have h0 : 0 ≤ nostalgiaScoreRaw b r rc mc lin := by
    rw [hraw]
    have hcul : 0 ≤ (if a < 0 then p * CULTURAL_WEIGHT else 0) := by
      split
      · exact mul_nonneg hp0 (by norm_num [CULTURAL_WEIGHT])
      · exact le_refl 0
    nlinarith
  have h1 : nostalgiaScoreRaw b r rc mc lin ≤ 1 := by
    rw [hraw]
    by_cases hc : a < 0
    · rw [if_pos hc]
      have hKE : ageNostalgia a < 1 / 2 := by
        unfold ageNostalgia
        rw [if_neg (not_le.mpr hc)]
        have hE : Real.exp (-(PREBIRTH_DECAY * |a|)) ≤ 1 := by
          rw [Real.exp_le_one_iff]
          have : 0 ≤ PREBIRTH_DECAY * |a| := by
            have : (0:ℝ) ≤ PREBIRTH_DECAY := by norm_num [PREBIRTH_DECAY]
            exact mul_nonneg this (abs_nonneg _)
          linarith
        have hK := birth_score_lt_half
        nlinarith [Real.exp_pos (-((0 - PEAK_AGE) ^ 2 / (2 * WIDTH ^ 2)))]
      have hcw : p * CULTURAL_WEIGHT ≤ 0.4 := by
        norm_num [CULTURAL_WEIGHT]
        nlinarith
      norm_num [BASE_WEIGHT, POP_BOOST] at hw0 ⊢
      nlinarith
    · rw [if_neg hc]
      norm_num [BASE_WEIGHT, POP_BOOST] at hw0 ⊢
      nlinarith
  refine ⟨h0, h1, clamp_eq_self h0 h1, ?_⟩
  unfold nostalgiaScore
  rw [clamp_eq_self h0 h1]

/-- Witness for the amended C10 at a concrete linear-mode input. -/
theorem nostalgiaScoreRaw_clamp_id_witness :
    0 ≤ nostalgiaScoreRaw 1990 2000 50 100 true ∧
      nostalgiaScoreRaw 1990 2000 50 100 true ≤ 1 ∧
      min 1 (max 0 (nostalgiaScoreRaw 1990 2000 50 100 true)) =
        nostalgiaScoreRaw 1990 2000 50 100 true ∧
      nostalgiaScore 1990 2000 50 100 true =
        round3 (nostalgiaScoreRaw 1990 2000 50 100 true) := by
  apply nostalgiaScoreRaw_clamp_id
  unfold popularityScore
  rw [if_neg (by push_neg; norm_num)]
  simp only [if_true]
  exact min_le_left 1 _

/-! ### Age monotonicity (claim C3) -/

theorem ageNostalgia_anti_post {a1 a2 : ℝ} (h1 : 0 ≤ a1) (h2 : 0 ≤ a2)
    (h : |a1 - PEAK_AGE| ≤ |a2 - PEAK_AGE|) :
    ageNostalgia a2 ≤ ageNostalgia a1 := by
  unfold ageNostalgia
  rw [if_pos h1, if_pos h2]
  apply Real.exp_le_exp.mpr
  have hsq : (a1 - PEAK_AGE) ^ 2 ≤ (a2 - PEAK_AGE) ^ 2 := by
    have := pow_le_pow_left₀ (abs_nonneg (a1 - PEAK_AGE)) h 2
    rwa [sq_abs, sq_abs] at this
  have hpos : (0:ℝ) < 2 * WIDTH ^ 2 := by norm_num [WIDTH]
  have := (div_le_div_iff_of_pos_right hpos).mpr hsq
  linarith

theorem ageNostalgia_anti_pre {a1 a2 : ℝ} (h1 : a1 < 0) (h2 : a2 < 0)
    (h : a2 ≤ a1) :
    ageNostalgia a2 ≤ ageNostalgia a1 := by
  unfold ageNostalgia
  rw [if_neg (not_le.mpr h1), if_neg (not_le.mpr h2)]
  apply mul_le_mul_of_nonneg_left _ (Real.exp_pos _).le
  apply Real.exp_le_exp.mpr
  have habs : |a1| ≤ |a2| := by
    rw [abs_of_neg h1, abs_of_neg h2]
    linarith
  have hd : (0:ℝ) ≤ PREBIRTH_DECAY := by norm_num [PREBIRTH_DECAY]
  nlinarith

/-- C3 counterexample: at fixed maximal popularity, a user born in 1990 gets
a strictly higher score for content from 1989 (age at release -1, distance
from the peak |(-1)-13| = 14) than for content from 1990 (age 0, distance
13), because crossing into pre-birth content adds the cultural-nostalgia
term; this contradicts monotone non-increase in the distance from age 13. -/
theorem nostalgiaScore_cross_counterexample :
    nostalgiaScore 1990 1990 100 100 true < nostalgiaScore 1990 1989 100 100 true := by
  have hpop : popularityScore 100 100 true = 1 :=
    popularityScore_self 100 true (by norm_num)
  have hK := birth_score_lt_half
  have hK0 := Real.exp_pos (-((0 - PEAK_AGE) ^ 2 / (2 * WIDTH ^ 2)))
  have hE1 : Real.exp (-(PREBIRTH_DECAY * |(-1 : ℝ)|)) ≤ 1 := by
    rw [Real.exp_le_one_iff]
    norm_num [PREBIRTH_DECAY]
  have hE0 : 0.97 ≤ Real.exp (-(PREBIRTH_DECAY * |(-1 : ℝ)|)) := by
    have := Real.add_one_le_exp (-(PREBIRTH_DECAY * |(-1 : ℝ)|))
    norm_num [PREBIRTH_DECAY] at this ⊢
    linarith
  have hraw1 : nostalgiaScoreRaw 1990 1990 100 100 true =
      Real.exp (-((0 - PEAK_AGE) ^ 2 / (2 * WIDTH ^ 2))) := by
    unfold nostalgiaScoreRaw personalNostalgia
    push_cast
    rw [show ((1990 : ℝ) - 1990) = 0 from by norm_num]
    rw [hpop, ageNostalgia_of_nonneg le_rfl, culturalNostalgia_of_nonneg _ le_rfl]
    norm_num [BASE_WEIGHT, POP_BOOST]
  have hraw2 : nostalgiaScoreRaw 1990 1989 100 100 true =
      Real.exp (-((0 - PEAK_AGE) ^ 2 / (2 * WIDTH ^ 2))) *
        Real.exp (-(PREBIRTH_DECAY * |(-1 : ℝ)|)) + 0.4 := by
    unfold nostalgiaScoreRaw personalNostalgia
    push_cast
    rw [show ((1989 : ℝ) - 1990) = -1 from by norm_num]
    rw [hpop, ageNostalgia_of_neg (by norm_num), culturalNostalgia_of_neg _ (by norm_num)]
    norm_num [BASE_WEIGHT, POP_BOOST, CULTURAL_WEIGHT]
  have hb1 : 0 ≤ nostalgiaScoreRaw 1990 1990 100 100 true ∧
      nostalgiaScoreRaw 1990 1990 100 100 true ≤ 1 := by
    rw [hraw1]; exact ⟨hK0.le, by linarith⟩
  have hb2 : 0 ≤ nostalgiaScoreRaw 1990 1989 100 100 true ∧
      nostalgiaScoreRaw 1990 1989 100 100 true ≤ 1 := by
    rw [hraw2]
    constructor
    · nlinarith [Real.exp_pos (-(PREBIRTH_DECAY * |(-1 : ℝ)|))]
    · nlinarith [Real.exp_pos (-(PREBIRTH_DECAY * |(-1 : ℝ)|))]
  have hgap : nostalgiaScoreRaw 1990 1990 100 100 true + 0.37 ≤
      nostalgiaScoreRaw 1990 1989 100 100 true := by
    rw [hraw1, hraw2]
    nlinarith
  unfold nostalgiaScore
  rw [clamp_eq_self hb1.1 hb1.2, clamp_eq_self hb2.1 hb2.2]
  exact round3_lt_of_gap hgap

/-- C3 (amended): for a fixed popularity input the score is monotonically
non-increasing in the distance |age_at_release - 13| within the post-birth
region, and monotonically non-increasing as content gets older within the
pre-birth region; the non-increase does not extend across the post-to-pre
boundary (see the counterexample, where the cultural term raises the score). -/
theorem nostalgiaScore_age_monotone (b r1 r2 : ℤ) (rc mc : ℝ) (lin : Bool)
    (h : (0 ≤ (r1 : ℝ) - (b : ℝ) ∧ 0 ≤ (r2 : ℝ) - (b : ℝ) ∧
            |((r1 : ℝ) - (b : ℝ)) - PEAK_AGE| ≤ |((r2 : ℝ) - (b : ℝ)) - PEAK_AGE|) ∨
         ((r1 : ℝ) - (b : ℝ) < 0 ∧ (r2 : ℝ) - (b : ℝ) < 0 ∧ r2 ≤ r1)) :
    nostalgiaScore b r2 rc mc lin ≤ nostalgiaScore b r1 rc mc lin := by
  have hp0 : 0 ≤ popularityScore rc mc lin := popularityScore_nonneg rc mc lin
  set p := popularityScore rc mc lin with hp
  have hw0 : 0 ≤ BASE_WEIGHT + POP_BOOST * p := by
    norm_num [BASE_WEIGHT, POP_BOOST]
    nlinarith
  have hraw : nostalgiaScoreRaw b r2 rc mc lin ≤ nostalgiaScoreRaw b r1 rc mc lin := by
    unfold nostalgiaScoreRaw personalNostalgia
    rcases h with ⟨h1, h2, hd⟩ | ⟨h1, h2, hd⟩
    · rw [culturalNostalgia_of_nonneg _ h1, culturalNostalgia_of_nonneg _ h2]
      have := ageNostalgia_anti_post h1 h2 hd
      nlinarith
    · rw [culturalNostalgia_of_neg _ h1, culturalNostalgia_of_neg _ h2]
      have hdR : (r2 : ℝ) - (b : ℝ) ≤ (r1 : ℝ) - (b : ℝ) := by
        have : (r2 : ℝ) ≤ (r1 : ℝ) := Int.cast_le.mpr hd
        linarith
      have := ageNostalgia_anti_pre h1 h2 hdR
      nlinarith
  unfold nostalgiaScore
  apply round3_mono
  exact min_le_min (le_refl 1) (max_le_max (le_refl 0) hraw)

/-- Witness for the amended C3: age 18 content scores no higher than peak
age 13 content at the same popularity input. -/
theorem nostalgiaScore_age_monotone_witness :
    nostalgiaScore 1990 2008 50 100 true ≤ nostalgiaScore 1990 2003 50 100 true := by
  apply nostalgiaScore_age_monotone
  left
  refine ⟨by push_cast; norm_num, by push_cast; norm_num, ?_⟩
  push_cast
  rw [show ((2003 : ℝ) - 1990 - PEAK_AGE) = 0 from by norm_num [PEAK_AGE], abs_zero]
  exact abs_nonneg _

/-! ## Genre normalization (Algorithm 8, NORMALIZE_GENRE) -/

inductive ContentType where
  | movie
  | song
deriving DecidableEq

/-- Fixed movie genre consolidation map (constant MOVIE_GENRE_MAP). -/
def MOVIE_GENRE_MAP : List (String × String) :=
  [("drama", "drama"), ("comedy", "comedy"), ("action", "action"),
   ("adventure", "action"), ("romance", "romance"), ("thriller", "thriller"),
   ("horror", "thriller"), ("crime", "thriller"), ("sci-fi", "action"),
   ("animation", "comedy"), ("family", "comedy"), ("fantasy", "action"),
   ("mystery", "thriller"), ("war", "drama"), ("documentary", "other_movie"),
   ("musical", "comedy"), ("history", "drama")]

/-- Fixed song genre consolidation map (constant SONG_GENRE_MAP). -/
def SONG_GENRE_MAP : List (String × String) :=
  [("pop", "pop"), ("rock", "rock"), ("alternative", "rock"), ("indie", "rock"),
   ("hip hop", "hiphop"), ("hip-hop", "hiphop"), ("rap", "hiphop"),
   ("r&b", "rnb"), ("rnb", "rnb"), ("soul", "rnb"), ("blues", "rnb"),
   ("country", "country"), ("folk", "country"),
   ("electronic", "pop"), ("dance", "pop"), ("edm", "pop"), ("latin", "pop"),
   ("metal", "rock"), ("punk", "rock"),
   ("jazz", "other_song"), ("classical", "other_song"), ("reggae", "other_song")]

/-- First-match lookup in an association list, the map lookup of the source. -/
def assocLookup : List (String × String) → String → Option String
  | [], _ => none
  | kv :: rest, s => if s = kv.1 then some kv.2 else assocLookup rest s

/-- ASCII lowercasing of one character (the toLowerCase of the source). -/
def lowerChar (c : Char) : Char :=
  if 'A' ≤ c ∧ c ≤ 'Z' then Char.ofNat (c.toNat + 32) else c

def isSpaceChar (c : Char) : Bool :=
  c == ' ' || c == '\t' || c == '\n' || c == '\r'

/-- Strip leading and trailing whitespace (the trim of the source). -/
def trimChars (l : List Char) : List Char :=
  ((l.dropWhile isSpaceChar).reverse.dropWhile isSpaceChar).reverse

/-- Extract the first genre if multiple: split("|")[0].toLowerCase().trim(). -/
def firstGenreToken (raw : String) : String :=
  String.mk (trimChars ((raw.toList.takeWhile (fun c => c != '|')).map lowerChar))

/-- Genre normalization, Algorithm 8 (NORMALIZE_GENRE). -/
def normalizeGenre (raw : String) (ct : ContentType) : String :=
  if raw = "" then
    match ct with
    | ContentType.movie => "other_movie"
    | ContentType.song => "other_song"
  else
    match ct with
    | ContentType.movie => (assocLookup MOVIE_GENRE_MAP (firstGenreToken raw)).getD "other_movie"
    | ContentType.song => (assocLookup SONG_GENRE_MAP (firstGenreToken raw)).getD "other_song"

/-- The 12 canonical genre arms (constant ARMS). -/
def CANONICAL_ARMS : List String :=
  ["drama", "comedy", "action", "romance", "thriller", "other_movie",
   "pop", "rock", "hiphop", "rnb", "country", "other_song"]

theorem assocLookup_mem {m : List (String × String)} {s v : String}
    (h : assocLookup m s = some v) : v ∈ m.map Prod.snd := by
  induction m with
  | nil => simp [assocLookup] at h
  | cons kv rest ih =>
    rw [assocLookup] at h
    by_cases hs : s = kv.1
    · rw [if_pos hs] at h
      simp only [Option.some.injEq] at h
      simp [← h]
    · rw [if_neg hs] at h
      simp [ih h]

theorem normalizeGenre_movie_mem (raw : String) :
    normalizeGenre raw ContentType.movie ∈
      ["drama", "comedy", "action", "romance", "thriller", "other_movie"] := by
  unfold normalizeGenre
  split
  · decide
  · cases h : assocLookup MOVIE_GENRE_MAP (firstGenreToken raw) with
    | none => simp [h]
    | some v =>
      simp only [h, Option.getD_some]
      have hmem := assocLookup_mem h
      have hsub : ∀ x ∈ MOVIE_GENRE_MAP.map Prod.snd,
          x ∈ ["drama", "comedy", "action", "romance", "thriller", "other_movie"] := by
        decide
      exact hsub v hmem

theorem normalizeGenre_song_mem (raw : String) :
    normalizeGenre raw ContentType.song ∈
      ["pop", "rock", "hiphop", "rnb", "country", "other_song"] := by
  unfold normalizeGenre
  split
  · decide
  · cases h : assocLookup SONG_GENRE_MAP (firstGenreToken raw) with
    | none => simp [h]
    | some v =>
      simp only [h, Option.getD_some]
      have hmem := assocLookup_mem h
      have hsub : ∀ x ∈ SONG_GENRE_MAP.map Prod.snd,
          x ∈ ["pop", "rock", "hiphop", "rnb", "country", "other_song"] := by
        decide
      exact hsub v hmem

/-- C4 counterexample: the normalizer is not idempotent. The song input
"rap" maps to the canonical arm "hiphop", but "hiphop" itself is not a key
of SONG_GENRE_MAP, so renormalizing the output gives "other_song". -/
theorem normalizeGenre_not_idempotent :
    normalizeGenre ("rap") ContentType.song = "hiphop" ∧
      normalizeGenre ("hiphop") ContentType.song = "other_song" ∧
      normalizeGenre (normalizeGenre ("rap") ContentType.song) ContentType.song ≠
        normalizeGenre ("rap") ContentType.song := by
  refine ⟨by decide, by decide, by decide⟩

/-- C4 (amended): the normalizer is total — every input string and content
type yields one of the 12 canonical arms, with no failure path — and it is
idempotent on every output except the arm "hiphop", which a second
application (as a song genre) sends to "other_song". -/
theorem normalizeGenre_total_and_almost_idempotent (raw : String) (ct : ContentType) :
    normalizeGenre raw ct ∈ CANONICAL_ARMS ∧
      (normalizeGenre raw ct ≠ "hiphop" →
        normalizeGenre (normalizeGenre raw ct) ct = normalizeGenre raw ct) := by
  cases ct with
  | movie =>
    have hmem := normalizeGenre_movie_mem raw
    constructor
    · have hsub : ∀ x ∈ ["drama", "comedy", "action", "romance", "thriller", "other_movie"],
          x ∈ CANONICAL_ARMS := by decide
      exact hsub _ hmem
    · intro _
      simp only [List.mem_cons, List.mem_singleton, List.not_mem_nil, or_false] at hmem
      rcases hmem with h | h | h | h | h | h <;> rw [h] <;> decide
  | song =>
    have hmem := normalizeGenre_song_mem raw
    constructor
    · have hsub : ∀ x ∈ ["pop", "rock", "hiphop", "rnb", "country", "other_song"],
          x ∈ CANONICAL_ARMS := by decide
      exact hsub _ hmem
    · intro hne
      simp only [List.mem_cons, List.mem_singleton, List.not_mem_nil, or_false] at hmem
      rcases hmem with h | h | h | h | h | h
      · rw [h]; decide
      · rw [h]; decide
      · exact absurd h hne
      · rw [h]; decide
      · rw [h]; decide
      · rw [h]; decide

/-- Witness for the amended C4 at a concrete multi-genre movie input. -/
theorem normalizeGenre_total_and_almost_idempotent_witness :
    normalizeGenre ("Drama|Comedy") ContentType.movie ∈ CANONICAL_ARMS ∧
      normalizeGenre (normalizeGenre ("Drama|Comedy") ContentType.movie) ContentType.movie =
        normalizeGenre ("Drama|Comedy") ContentType.movie :=
  ⟨(normalizeGenre_total_and_almost_idempotent ("Drama|Comedy") ContentType.movie).1,
   (normalizeGenre_total_and_almost_idempotent ("Drama|Comedy") ContentType.movie).2
     (by decide)⟩

/-! ## Candidate filtering (step 5 of GET_RECOMMENDATION) -/

/-- A candidate item as assembled in step 4 of GET_RECOMMENDATION. The
stored nostalgia and similarity scores are the 3-decimal rounded values,
represented as rationals. -/
structure Candidate where
  ctype : ContentType
  id : ℕ
  genre : String
  year : ℤ
  nostalgia_score : ℚ
  similarity_score : ℚ
deriving DecidableEq

/-- Threshold for nostalgic content (constant MIN_NOSTALGIA_SCORE). -/
def MIN_NOSTALGIA_SCORE : ℚ := 0.3

/-- Recency exclusion: remove candidates whose id appears among the recent
feedback ids. -/
def recencyFilter (recent_ids : List ℕ) (cands : List Candidate) : List Candidate :=
  cands.filter (fun c => !(recent_ids.contains c.id))

/-- Nostalgia threshold filter with fallback: keep candidates scoring at
least the threshold, unless that empties the list, in which case keep the
input list unchanged. -/
def nostalgiaThresholdFilter (cands : List Candidate) : List Candidate :=
  let nostalgic := cands.filter (fun c => MIN_NOSTALGIA_SCORE ≤ c.nostalgia_score)
  if 0 < nostalgic.length then nostalgic else cands

/-- Full candidate filter of step 5: recency exclusion, then the nostalgia
threshold with fallback. -/
def candidateFilter (recent_ids : List ℕ) (cands : List Candidate) : List Candidate :=
  nostalgiaThresholdFilter (recencyFilter recent_ids cands)

/-- C5: if the recency-filtered candidate list is non-empty but every
surviving candidate scores below the 0.3 nostalgia threshold, the filter
falls back to the whole recency-filtered list instead of returning an
empty list. -/
theorem candidateFilter_fallback (recent_ids : List ℕ) (cands : List Candidate)
    (hne : recencyFilter recent_ids cands ≠ [])
    (hlow : ∀ c ∈ recencyFilter recent_ids cands,
      c.nostalgia_score < MIN_NOSTALGIA_SCORE) :
    candidateFilter recent_ids cands = recencyFilter recent_ids cands ∧
      candidateFilter recent_ids cands ≠ [] := by
  have hfilter : (recencyFilter recent_ids cands).filter
      (fun c => MIN_NOSTALGIA_SCORE ≤ c.nostalgia_score) = [] := by
    rw [List.filter_eq_nil_iff]
    intro c hc
    simpa using not_le.mpr (hlow c hc)
  unfold candidateFilter nostalgiaThresholdFilter
  simp only [hfilter, List.length_nil, lt_self_iff_false, if_false]
  exact ⟨trivial, hne⟩

/-- A sample low-nostalgia candidate used by the fallback witness. -/
def sampleCandidate : Candidate :=
  Candidate.mk ContentType.movie 1 ("drama") 1995 (1/10) (1/2)

/-- Witness for C5: a single low-scoring candidate survives the filter. -/
theorem candidateFilter_fallback_witness :
    candidateFilter [] [sampleCandidate] = recencyFilter [] [sampleCandidate] ∧
      candidateFilter [] [sampleCandidate] ≠ [] := by
  have hrec : recencyFilter [] [sampleCandidate] = [sampleCandidate] := by
    simp [recencyFilter]
  refine candidateFilter_fallback [] [sampleCandidate] ?_ ?_
  · rw [hrec]
    simp
  · rw [hrec]
    intro c hc
    rw [List.mem_singleton] at hc
    subst hc
    norm_num [MIN_NOSTALGIA_SCORE, sampleCandidate]

/-! ## LinUCB arm state (Algorithm 6 and the feedback-loop model update) -/

/-- Number of context features (constant CONTEXT_DIM). -/
abbrev CONTEXT_DIM : ℕ := 12

/-- A context feature vector of dimension CONTEXT_DIM. -/
abbrev Ctx := Fin CONTEXT_DIM → ℝ

/-- A CONTEXT_DIM × CONTEXT_DIM real matrix. -/
abbrev Mat := Matrix (Fin CONTEXT_DIM) (Fin CONTEXT_DIM) ℝ

/-- Per-arm LinUCB ridge-regression state: covariance-like matrix A,
reward-weighted vector b, and update counter n; the derived weights are
theta = A⁻¹ b. -/
structure ArmState where
  A : Mat
  b : Ctx
  n : ℕ

/-- Initial arm state: A seeded as the identity matrix, b as the zero
vector. -/
def armInit : ArmState := ArmState.mk 1 0 0

/-- Reward binarization before accumulation: reward > 0.5 becomes 1,
anything else 0 (step 1 of LINUCB_UPDATE). -/
noncomputable def binaryReward (reward : ℝ) : ℝ :=
  if reward > 0.5 then 1 else 0

/-- One model update (steps 5-7 of the feedback loop, step 2 of
LINUCB_UPDATE): A ← A + x xᵀ, b ← b + r·x with the binarized reward, and
the update counter incremented. -/
noncomputable def armUpdate (st : ArmState) (x : Ctx) (reward : ℝ) : ArmState :=
  ArmState.mk (st.A + Matrix.vecMulVec x x) (st.b + binaryReward reward • x) (st.n + 1)

/-- Predicted expectation θᵀx with θ = A⁻¹ b (step 7 of the feedback loop;
the exploitation term of the UCB formula). -/
noncomputable def predict (A : Mat) (b : Ctx) (x : Ctx) : ℝ :=
  Matrix.dotProduct (A⁻¹.mulVec b) x

/-- C8: applying two updates in sequence accumulates exactly
A + x₁x₁ᵀ + x₂x₂ᵀ and b + r₁·x₁ + r₂·x₂ (with the binarized rewards, which
equal the raw rewards on the binary feedback the system produces), and the
order of the two updates does not change the resulting state. -/
theorem armUpdate_additive (st : ArmState) (x1 x2 : Ctx) (r1 r2 : ℝ) :
    (armUpdate (armUpdate st x1 r1) x2 r2).A =
        st.A + Matrix.vecMulVec x1 x1 + Matrix.vecMulVec x2 x2 ∧
      (armUpdate (armUpdate st x1 r1) x2 r2).b =
        st.b + binaryReward r1 • x1 + binaryReward r2 • x2 ∧
      armUpdate (armUpdate st x1 r1) x2 r2 = armUpdate (armUpdate st x2 r2) x1 r1 := by
  refine ⟨rfl, rfl, ?_⟩
  unfold armUpdate
  rw [add_right_comm st.A (Matrix.vecMulVec x1 x1) (Matrix.vecMulVec x2 x2),
    add_right_comm st.b (binaryReward r1 • x1) (binaryReward r2 • x2)]

/-! ### Positive definiteness of the accumulated matrix (claim C9) -/

theorem vecMulVec_mulVec (v w : Ctx) :
    (Matrix.vecMulVec v v).mulVec w = Matrix.dotProduct v w • v := by
  ext i
  simp only [Matrix.mulVec, Matrix.vecMulVec_apply, Matrix.dotProduct,
    Pi.smul_apply, smul_eq_mul, Finset.mul_sum]
  rw [Finset.sum_mul]
  apply Finset.sum_congr rfl
  intro j _
  ring

theorem vecMulVec_posSemidef (x : Ctx) : (Matrix.vecMulVec x x).PosSemidef := by
  constructor
  · ext i j
    simp [Matrix.conjTranspose_apply, Matrix.vecMulVec_apply, mul_comm]
  · intro y
    rw [vecMulVec_mulVec, star_trivial, Matrix.dotProduct_smul, smul_eq_mul,
      Matrix.dotProduct_comm y x]
    exact mul_self_nonneg _

/-- The matrices reachable from the identity seed by update accumulation
steps A ← A + x xᵀ. -/
inductive ReachableA : Mat → Prop where
  | init : ReachableA 1
  | step (B : Mat) (x : Ctx) : ReachableA B → ReachableA (B + Matrix.vecMulVec x x)

set_option maxRecDepth 4000 in
/-- C9: every reachable accumulation matrix A is symmetric positive
definite, its determinant is a unit, and its (nonsingular) inverse really
is a two-sided inverse — so A⁻¹ and hence θ = A⁻¹ b always exist. -/
theorem reachableA_posDef {A : Mat} (h : ReachableA A) :
    A.PosDef ∧ Aᵀ = A ∧ IsUnit A.det ∧ A * A⁻¹ = 1 ∧ A⁻¹ * A = 1 := by
  have hpd : A.PosDef := by
    induction h with
    | init => exact Matrix.PosDef.one
    | step B x hB ih => exact ih.add_posSemidef (vecMulVec_posSemidef x)
  have hdet : IsUnit A.det := (Matrix.isUnit_iff_isUnit_det A).mp hpd.isUnit
  have hsymm : Aᵀ = A := by
    have := hpd.isHermitian.eq
    rwa [Matrix.conjTranspose_eq_transpose_of_trivial] at this
  exact ⟨hpd, hsymm, hdet, Matrix.mul_nonsing_inv A hdet, Matrix.nonsing_inv_mul A hdet⟩

/-- First standard basis context vector, used in concrete bandit
witnesses. -/
def e0 : Ctx := Pi.single (0 : Fin CONTEXT_DIM) (1 : ℝ)

/-- Witness for C9 on the concrete reachable matrix 1 + e₀e₀ᵀ. -/
theorem reachableA_posDef_witness :
    ((1 : Mat) + Matrix.vecMulVec e0 e0).PosDef ∧
      ((1 : Mat) + Matrix.vecMulVec e0 e0)ᵀ = (1 : Mat) + Matrix.vecMulVec e0 e0 ∧
      IsUnit ((1 : Mat) + Matrix.vecMulVec e0 e0).det ∧
      ((1 : Mat) + Matrix.vecMulVec e0 e0) * ((1 : Mat) + Matrix.vecMulVec e0 e0)⁻¹ = 1 ∧
      ((1 : Mat) + Matrix.vecMulVec e0 e0)⁻¹ * ((1 : Mat) + Matrix.vecMulVec e0 e0) = 1 :=
  reachableA_posDef (ReachableA.step 1 e0 ReachableA.init)

/-! ### Effect of a positive update on the prediction (claim C7) -/

theorem posDef_transpose_eq {A : Mat} (hA : A.PosDef) : Aᵀ = A := by
  have h := hA.isHermitian.eq
  rwa [Matrix.conjTranspose_eq_transpose_of_trivial] at h

theorem posDef_isUnit_det {A : Mat} (hA : A.PosDef) : IsUnit A.det :=
  (Matrix.isUnit_iff_isUnit_det A).mp hA.isUnit

theorem mulVec_dotProduct_comm (N : Mat) (v w : Ctx) :
    Matrix.dotProduct (N.mulVec v) w = Matrix.dotProduct v (Nᵀ.mulVec w) := by
  rw [Matrix.dotProduct_comm, Matrix.dotProduct_mulVec, ← Matrix.mulVec_transpose,
    Matrix.dotProduct_comm]

theorem quad_pos {A : Mat} (hA : A.PosDef) {x : Ctx} (hx : x ≠ 0) :
    0 < Matrix.dotProduct x (A⁻¹.mulVec x) := by
  have hdet := posDef_isUnit_det hA
  set y := A⁻¹.mulVec x with hy
  have hAy : A.mulVec y = x := by
    rw [hy, Matrix.mulVec_mulVec, Matrix.mul_nonsing_inv A hdet, Matrix.one_mulVec]
  have hy0 : y ≠ 0 := by
    intro h0
    apply hx
    rw [← hAy, h0, Matrix.mulVec_zero]
  have hq := hA.2 y hy0
  rw [star_trivial] at hq
  rw [← hAy, Matrix.dotProduct_comm]
  exact hq

/-- Closed form for the prediction at context x after accumulating the
update A ← A + xxᵀ, b ← b + x: if the pre-update prediction is p and
s = xᵀA⁻¹x, the new prediction is (p + s) / (1 + s). -/
theorem predict_after_update (A : Mat) (b x : Ctx) (hA : A.PosDef) (hx : x ≠ 0) :
    predict (A + Matrix.vecMulVec x x) (b + x) x =
      (predict A b x + Matrix.dotProduct x (A⁻¹.mulVec x)) /
        (1 + Matrix.dotProduct x (A⁻¹.mulVec x)) := by
  have hdet := posDef_isUnit_det hA
  have hsymm := posDef_transpose_eq hA
  set y := A⁻¹.mulVec x with hy
  set s := Matrix.dotProduct x y with hs
  have hspos : 0 < s := quad_pos hA hx
  have h1s : (0 : ℝ) < 1 + s := by linarith
  have hAy : A.mulVec y = x := by
    rw [hy, Matrix.mulVec_mulVec, Matrix.mul_nonsing_inv A hdet, Matrix.one_mulVec]
  set M := A + Matrix.vecMulVec x x with hM
  have hMpd : M.PosDef := hA.add_posSemidef (vecMulVec_posSemidef x)
  have hMdet := posDef_isUnit_det hMpd
  have hMsymm := posDef_transpose_eq hMpd
  have hMx : M.mulVec ((1 + s)⁻¹ • y) = x := by
    rw [Matrix.mulVec_smul, hM, Matrix.add_mulVec, hAy, vecMulVec_mulVec, ← hs]
    rw [show x + s • x = (1 + s) • x from by rw [add_smul, one_smul]]
    rw [smul_smul, inv_mul_cancel₀ h1s.ne', one_smul]
  have hMinvx : M⁻¹.mulVec x = (1 + s)⁻¹ • y := by
    calc M⁻¹.mulVec x = M⁻¹.mulVec (M.mulVec ((1 + s)⁻¹ • y)) := by rw [hMx]
      _ = (M⁻¹ * M).mulVec ((1 + s)⁻¹ • y) := Matrix.mulVec_mulVec _ _ _
      _ = (1 + s)⁻¹ • y := by rw [Matrix.nonsing_inv_mul M hMdet, Matrix.one_mulVec]
  have hMinvT : M⁻¹ᵀ = M⁻¹ := by rw [Matrix.transpose_nonsing_inv, hMsymm]
  have hAinvT : A⁻¹ᵀ = A⁻¹ := by rw [Matrix.transpose_nonsing_inv, hsymm]
  unfold predict
  rw [mulVec_dotProduct_comm, hMinvT, hMinvx, Matrix.dotProduct_smul,
    Matrix.add_dotProduct, mulVec_dotProduct_comm A⁻¹ b x, hAinvT, ← hy, ← hs,
    smul_eq_mul]
  ring

/-- C7 (amended): for every arm state whose matrix A is symmetric positive
definite — as every reachable state's matrix is — and every nonzero context
x at which the current prediction θᵀx is below 1, recording a positive
reward at x strictly increases the prediction at x. At θᵀx = 1 the
prediction is unchanged, at x = 0 it is unchanged, and at θᵀx > 1 it can
strictly decrease (see the counterexample). -/
theorem predict_strict_increase (st : ArmState) (x : Ctx)
    (hA : st.A.PosDef) (hx : x ≠ 0) (hp : predict st.A st.b x < 1) :
    predict st.A st.b x < predict (armUpdate st x 1).A (armUpdate st x 1).b x := by
  have hbin : binaryReward 1 = 1 := by norm_num [binaryReward]
  have hAc : (armUpdate st x 1).A = st.A + Matrix.vecMulVec x x := rfl
  have hbc : (armUpdate st x 1).b = st.b + x := by
    show st.b + binaryReward 1 • x = st.b + x
    rw [hbin, one_smul]
  rw [hAc, hbc, predict_after_update st.A st.b x hA hx]
  set s := Matrix.dotProduct x (st.A⁻¹.mulVec x) with hs
  have hspos : 0 < s := quad_pos hA hx
  rw [lt_div_iff₀ (by linarith)]
  nlinarith

/-- Witness for the amended C7: from the freshly seeded arm state, a
positive update at the basis context e₀ strictly raises the prediction. -/
theorem predict_strict_increase_witness :
    predict armInit.A armInit.b e0 <
      predict (armUpdate armInit e0 1).A (armUpdate armInit e0 1).b e0 := by
  refine predict_strict_increase armInit e0 Matrix.PosDef.one ?_ ?_
  · intro h
    have h0 := congrFun h 0
    simp [e0] at h0
  · have hpred : predict armInit.A armInit.b e0 = 0 := by
      show predict 1 0 e0 = 0
      unfold predict
      rw [inv_one, Matrix.mulVec_zero, Matrix.zero_dotProduct]
    rw [hpred]
    norm_num

theorem vecMulVec_mul_vecMulVec (u v w z : Ctx) :
    Matrix.vecMulVec u v * Matrix.vecMulVec w z =
      Matrix.dotProduct v w • Matrix.vecMulVec u z := by
  ext i j
  simp only [Matrix.mul_apply, Matrix.vecMulVec_apply, Matrix.smul_apply,
    smul_eq_mul, Matrix.dotProduct]
  rw [Finset.sum_mul]
  apply Finset.sum_congr rfl
  intro k _
  ring

theorem vecMulVec_smul_smul (c d : ℝ) (u v : Ctx) :
    Matrix.vecMulVec (c • u) (d • v) = (c * d) • Matrix.vecMulVec u v := by
  ext i j
  simp only [Matrix.vecMulVec_apply, Matrix.smul_apply, Pi.smul_apply, smul_eq_mul]
  ring

theorem e0_dot_e0 : Matrix.dotProduct e0 e0 = 1 := by
  unfold e0
  rw [Matrix.dotProduct_single, Pi.single_eq_same, mul_one]

theorem inv_one_add_smul_outer (c : ℝ) (hc : (1 : ℝ) + c ≠ 0) :
    ((1 : Mat) + c • Matrix.vecMulVec e0 e0)⁻¹ =
      1 - (c / (1 + c)) • Matrix.vecMulVec e0 e0 := by
  apply Matrix.inv_eq_right_inv
  set P := Matrix.vecMulVec e0 e0 with hP
  have hPP : P * P = P := by
    rw [hP, vecMulVec_mul_vecMulVec, e0_dot_e0, one_smul]
  rw [mul_sub, mul_one, Matrix.mul_smul, add_mul, one_mul, Matrix.smul_mul, hPP]
  rw [show P + c • P = (1 + c) • P from by rw [add_smul, one_smul]]
  rw [smul_smul, div_mul_cancel₀ c hc, add_sub_cancel_right]

theorem predict_one_add_smul_outer (c β ξ : ℝ) (hc : (1 : ℝ) + c ≠ 0) :
    predict ((1 : Mat) + c • Matrix.vecMulVec e0 e0) (β • e0) (ξ • e0) =
      (β - c / (1 + c) * β) * ξ := by
  unfold predict
  rw [inv_one_add_smul_outer c hc, Matrix.sub_mulVec, Matrix.one_mulVec,
    Matrix.smul_mulVec_assoc, Matrix.mulVec_smul, vecMulVec_mulVec, e0_dot_e0,
    one_smul]
  simp only [Matrix.sub_dotProduct, Matrix.smul_dotProduct, Matrix.dotProduct_smul,
    e0_dot_e0, smul_eq_mul]
  ring

/-- C7 counterexample: starting from the seeded state and one positive
update at context e₀ (a genuinely fitted, reachable state with A = 1 +
e₀e₀ᵀ, b = e₀), the prediction at context 4·e₀ is 2; a further positive
update at that same context drops the prediction there to 10/9 — a strict
decrease even though the pre-update prediction 2 is not the claimed
saturation value. Moreover, at the all-zero context (which the context
builder actually produces for a neutral user) the prediction is 0, not the
maximum, yet a positive update leaves it unchanged at 0. -/
theorem predict_positive_update_counterexample :
    predict (armUpdate armInit e0 1).A (armUpdate armInit e0 1).b ((4 : ℝ) • e0) = 2 ∧
      predict (armUpdate (armUpdate armInit e0 1) ((4 : ℝ) • e0) 1).A
        (armUpdate (armUpdate armInit e0 1) ((4 : ℝ) • e0) 1).b ((4 : ℝ) • e0) = 10 / 9 ∧
      predict (armUpdate armInit e0 1).A (armUpdate armInit e0 1).b (0 : Ctx) = 0 ∧
      predict (armUpdate (armUpdate armInit e0 1) (0 : Ctx) 1).A
        (armUpdate (armUpdate armInit e0 1) (0 : Ctx) 1).b (0 : Ctx) = 0 := by
  have hbin : binaryReward 1 = 1 := by norm_num [binaryReward]
  have hA1 : (armUpdate armInit e0 1).A = 1 + (1 : ℝ) • Matrix.vecMulVec e0 e0 := by
    show (1 : Mat) + Matrix.vecMulVec e0 e0 = 1 + (1 : ℝ) • Matrix.vecMulVec e0 e0
    rw [one_smul]
  have hb1 : (armUpdate armInit e0 1).b = (1 : ℝ) • e0 := by
    show (0 : Ctx) + binaryReward 1 • e0 = (1 : ℝ) • e0
    rw [hbin, zero_add]
  have hA2 : (armUpdate (armUpdate armInit e0 1) ((4 : ℝ) • e0) 1).A =
      1 + (17 : ℝ) • Matrix.vecMulVec e0 e0 := by
    show (armUpdate armInit e0 1).A + Matrix.vecMulVec ((4 : ℝ) • e0) ((4 : ℝ) • e0) =
      1 + (17 : ℝ) • Matrix.vecMulVec e0 e0
    rw [hA1, vecMulVec_smul_smul, add_assoc]
    rw [show (1 : ℝ) • Matrix.vecMulVec e0 e0 + ((4 : ℝ) * 4) • Matrix.vecMulVec e0 e0 =
      (17 : ℝ) • Matrix.vecMulVec e0 e0 from by rw [← add_smul]; norm_num]
  have hb2 : (armUpdate (armUpdate armInit e0 1) ((4 : ℝ) • e0) 1).b = (5 : ℝ) • e0 := by
    show (armUpdate armInit e0 1).b + binaryReward 1 • ((4 : ℝ) • e0) = (5 : ℝ) • e0
    rw [hb1, hbin, smul_smul, ← add_smul]
    norm_num
  refine ⟨?_, ?_, ?_, ?_⟩
  · rw [hA1, hb1, predict_one_add_smul_outer 1 1 4 (by norm_num)]
    norm_num
  · rw [hA2, hb2, predict_one_add_smul_outer 17 5 4 (by norm_num)]
    norm_num
  · unfold predict
    rw [Matrix.dotProduct_zero]
  · unfold predict
    rw [Matrix.dotProduct_zero]

/-! ## Candidate scoring and hierarchical selection (Algorithms 4-5) -/

/-- Exploration parameter (constant alpha). -/
def ALPHA : ℝ := 1

/-- UCB bound of one fitted arm: θᵀx + α·sqrt(xᵀA⁻¹x). -/
noncomputable def ucbScore (st : ArmState) (x : Ctx) : ℝ :=
  predict st.A st.b x + ALPHA * Real.sqrt (Matrix.dotProduct x (st.A⁻¹.mulVec x))

/-- One LinUCB model (the global one, or one user's): fitted flag, per-arm
states keyed by canonical arm name, and the aggregate update counter. -/
structure BanditModel where
  fitted : Bool
  arms : String → ArmState
  n_updates : ℕ

/-- Arm of a candidate via genre normalization (GetArmFromCandidate). -/
def getArm (c : Candidate) : String := normalizeGenre c.genre c.ctype

/-- Score Algorithm 5 assigns to one candidate under a fitted model: the
arm's expectation when the arm is among ARMS, 0.5 otherwise. -/
noncomputable def candScore (m : BanditModel) (x : Ctx) (c : Candidate) : ℝ :=
  if getArm c ∈ CANONICAL_ARMS then ucbScore (m.arms (getArm c)) x else 0.5

/-- Accumulator pass returning the index and score of the first maximal
score, matching a stable descending sort followed by taking the head. -/
noncomputable def bestOfAux : List ℝ → ℕ → ℕ × ℝ → ℕ × ℝ
  | [], _, acc => acc
  | sc :: rest, i, acc => bestOfAux rest (i + 1) (if sc > acc.2 then (i, sc) else acc)

/-- Index and score of the first maximal element of a score list (step 5 of
LINUCB_SELECT). The source indexes into the sorted list and so faults on an
empty candidate list; no claim exercises that case. -/
noncomputable def bestOf : List ℝ → ℕ × ℝ
  | [] => (0, 0.5)
  | sc :: rest => bestOfAux rest 1 (0, sc)

/-- LinUCB selection, Algorithm 5 (LINUCB_SELECT): a random index with
placeholder score 0.5 when the model is not fitted (the random draw is
modelled by the caller-supplied number rnd), otherwise the first candidate
attaining the maximal arm score. -/
noncomputable def linucbSelect (m : BanditModel) (x : Ctx)
    (cands : List Candidate) (rnd : ℕ) : ℕ × ℝ :=
  if m.fitted = false then (rnd % cands.length, 0.5)
  else bestOf (cands.map (candScore m x))

/-- Minimum interactions before the personalized model is used (constant
MIN_USER_UPDATES). -/
def MIN_USER_UPDATES : ℕ := 10

/-- Maximum weight for the user model (constant MAX_BLEND). -/
def MAX_BLEND : ℝ := 0.7

/-- Hierarchical selection, Algorithm 4 (HIERARCHICAL_SELECT): global
selection, cold-start guard, then the blend comparison. -/
noncomputable def hierarchicalSelect (globalModel userModel : BanditModel)
    (x : Ctx) (cands : List Candidate) (rnd : ℕ) : ℕ × ℝ :=
  let gsel := linucbSelect globalModel x cands rnd
  if userModel.n_updates < MIN_USER_UPDATES then gsel
  else
    let usel := linucbSelect userModel x cands rnd
    let blend : ℝ := min ((userModel.n_updates : ℝ) / 50) MAX_BLEND
    if usel.2 * blend > gsel.2 * (1 - blend) then usel else gsel

/-- C6: for a user whose model has fewer than 10 updates, hierarchical
selection returns exactly the index and score of the global-only
selection, whatever the per-user model holds and whatever the context,
candidate list and random draw are. -/
theorem hierarchicalSelect_cold_start (globalModel userModel : BanditModel)
    (x : Ctx) (cands : List Candidate) (rnd : ℕ)
    (h : userModel.n_updates < MIN_USER_UPDATES) :
    hierarchicalSelect globalModel userModel x cands rnd =
      linucbSelect globalModel x cands rnd := by
  unfold hierarchicalSelect
  simp only [if_pos h]

/-- A freshly created, unfitted bandit model with zero updates. -/
def emptyModel : BanditModel := BanditModel.mk false (fun _ => armInit) 0

/-- Witness for C6 with two freshly created models. -/
theorem hierarchicalSelect_cold_start_witness :
    hierarchicalSelect emptyModel emptyModel 0 [] 0 =
      linucbSelect emptyModel 0 [] 0 :=
  hierarchicalSelect_cold_start emptyModel emptyModel 0 [] 0 (by decide)

end NostalgicModel
